import Mathlib

/-!
# rb-libsvm: the marshaling layer of `ext/libsvm/libsvm.c`

A shallow embedding of the C extension that binds the LIBSVM engine to Ruby.

Conventions of the embedding

* A C `double` is an element of an arbitrary carrier `D` with a zero (`0.0`).
  The extension only ever copies doubles (`memcpy`, `NUM2DBL`, `rb_float_new`),
  it never computes with them.
* A heap block is the list of its cells and a pointer is the block it points
  to: every block of this file has exactly one owner (the Problem owns `y`,
  `x` and each `x[i]`), so no two pointers alias.  `NULL` is the empty block.
* Reading a cell that lies outside its block is undefined behaviour in C; the
  embedding makes it the outcome `Outcome.undefined`.
* `rb_raise` leaves the function at once; the outcome `Outcome.raised` keeps
  the state the object had at that moment.
* `calloc` is taken to succeed whenever the requested count is not negative
  (memory exhaustion is outside the model), and lengths of Ruby arrays are
  taken to fit the C type `int`.
* A counted loop `for (i = 0; i < n; ++i)` is a left fold over `List.range n`.
-/

namespace Libsvm

/-! ## Ruby and C runtime -/

/-- Ruby exceptions the extension can leave with. -/
inductive RubyError where
  | ArgumentError (msg : String)
  | NoMemError (msg : String)
  | RangeError
  | TypeError
  deriving DecidableEq

/-- How a call of an extension function ends: it returns a value, it raises a
Ruby exception, or the C code runs into undefined behaviour.  The first two
carry the state of the receiver at that moment. -/
inductive Outcome (σ α : Type) where
  | returned (st : σ) (v : α)
  | raised (st : σ) (e : RubyError)
  | undefined
  deriving DecidableEq

/-- The loop `for (i = 0; i < n; ++i) body`, where the body may raise or run
into undefined behaviour; both end the loop at once. -/
def for_loop {σ : Type} (n : Nat) (body : Nat → σ → Outcome σ Unit) (s : σ) :
    Outcome σ Unit :=
  (List.range n).foldl
    (fun acc i =>
      match acc with
      | .returned st _ => body i st
      | .raised st e => .raised st e
      | .undefined => .undefined)
    (.returned s ())

/-- Modelled from the spec: `rx_ary_size` is a macro of `ruby-ext.h`, which is
not part of the source; the spec calls it `len(...)` of the Ruby array. -/
def rx_ary_size {α : Type} (ary : List α) : Nat := ary.length

/-- Ruby `rb_ary_entry(ary, j)`: the element at offset `j`, nil past the end. -/
def rb_ary_entry {α : Type} (ary : List α) (j : Nat) : Option α := ary[j]?

/-- Ruby `rb_ary_push(ary, v)`. -/
def rb_ary_push {α : Type} (ary : List α) (v : α) : List α := ary ++ [v]

/-- Ruby `rb_ary_new2(capa)`: a new empty array; a negative capacity raises. -/
def rb_ary_new2 {α : Type} (capa : Int) : Except RubyError (List α) :=
  if capa < 0 then .error (.ArgumentError "negative array size (or size too big)")
  else .ok []

/-- C `calloc(n, size)` for a count that is not negative: `n` zeroed cells. -/
def calloc {α : Type} (n : Nat) (zero : α) : List α := List.replicate n zero

/-- Ruby `NUM2INT`: an Integer outside the range of C `int` raises. -/
def NUM2INT (v : Int) : Except RubyError Int :=
  if -2147483648 ≤ v ∧ v ≤ 2147483647 then .ok v else .error .RangeError

/-- Twos-complement wrap of a C `int` result (32 bits). -/
def wrap_int (z : Int) : Int := (z + 2147483648) % 4294967296 - 2147483648

/-! ## Data model -/

/-- Modelled from the spec: `struct svm_node` is declared in `svm.h` of
the engine, which is not part of the source.  A SparseVector entry
`{ index: signed integer, value: double }`. -/
structure svm_node (D : Type) where
  index : Int
  value : D
  deriving DecidableEq

/-- `const struct svm_node TERMINATOR = (struct svm_node) { -1, 0.0 };` -/
def TERMINATOR {D : Type} [Zero D] : svm_node D := { index := -1, value := 0 }

/-- Modelled from the spec: `struct svm_problem` is declared in `svm.h` of
the engine, which is not part of the source.  The count `l`, the label array `y`
and the array `x` of pointers to sentinel-terminated buffers. -/
structure svm_problem (D : Type) where
  l : Int
  y : List D
  x : List (List (svm_node D))
  deriving DecidableEq

/-- A block handed to `free`, with the place its pointer was read from:
`prob->y`, `*(prob->x+i)`, `prob->x`, `param->weight`, `param->weight_label`. -/
inductive Released (D : Type) where
  | label_array (block : List D)
  | example_buffer (i : Nat) (block : List (svm_node D))
  | pointer_array (block : List (List (svm_node D)))
  | weight_array (block : List D)
  | weight_label_array (block : List Int)
  deriving DecidableEq

/-- A Problem object together with the blocks it has released so far, oldest
first. -/
structure ProblemMem (D : Type) where
  prob : svm_problem D
  freed : List (Released D)
  deriving DecidableEq

/-- `problem_new`: `calloc(1, sizeof(struct svm_problem))`, all fields zero. -/
def problem_new {D : Type} : ProblemMem D :=
  { prob := { l := 0, y := [], x := [] }, freed := [] }

/-! ## SparseVector codec and Example Set codec -/

/-- `example_to_internal`: a fresh buffer of `len + 1` nodes, the nodes of the
Ruby array copied in order, the terminator copied behind them. -/
def example_to_internal {D : Type} [Zero D] (example_ary : List (svm_node D)) :
    List (svm_node D) :=
  let example_ary_len := rx_ary_size example_ary
  let x := calloc (example_ary_len + 1) ({ index := 0, value := 0 } : svm_node D)
  let x := (List.range example_ary_len).foldl
    (fun x j =>
      match rb_ary_entry example_ary j with
      | some node_struct => x.set j node_struct
      | none => x)
    x
  x.set example_ary_len TERMINATOR

/-- `examples_ary_to_internal`: a fresh array of `num` pointers, the i-th set
to the buffer of the i-th example. -/
def examples_ary_to_internal {D : Type} [Zero D]
    (examples_ary : List (List (svm_node D))) : List (List (svm_node D)) :=
  let num := rx_ary_size examples_ary
  let x := calloc num ([] : List (svm_node D))
  (List.range num).foldl
    (fun x i =>
      match rb_ary_entry examples_ary i with
      | some nodes_ary => x.set i (example_to_internal nodes_ary)
      | none => x)
    x

/-- The scan loop of `cProblem_examples`,
`while (node->index != -1) { push a copy of *node; ++node; }`,
run on the cells from `node` to the end of its block.  Running off the end of
the block is undefined behaviour (`none`). -/
def cProblem_examples_scan {D : Type} :
    List (svm_node D) → List (svm_node D) → Option (List (svm_node D))
  | [], _ => none
  | node :: rest, example_ary =>
    if node.index ≠ -1 then cProblem_examples_scan rest (rb_ary_push example_ary node)
    else some example_ary

/-! ## Problem -/

/-- The text of the ArgumentError of `set_examples`,
`"Number of labels (%i) does not match number of features (%i)."`. -/
def examples_set_message (num num_examples : Nat) : String :=
  "Number of labels (" ++ toString num ++ ") does not match number of features ("
    ++ toString num_examples ++ ")."

/-- The release block of `cProblem_examples_set`, entered when `prob->l > 0`:
`free(prob->y); for (i = 0; i < num; ++i) free(*(prob->x+i)); free(prob->x);`
where `num` is the length of the NEW label array. -/
def cProblem_examples_set_release {D : Type} (m : ProblemMem D) (num : Nat) :
    Outcome (ProblemMem D) Unit :=
  let m1 : ProblemMem D := { m with freed := m.freed ++ [.label_array m.prob.y] }
  match for_loop num
      (fun i (st : ProblemMem D) =>
        match st.prob.x[i]? with
        | some block =>
          .returned { st with freed := st.freed ++ [.example_buffer i block] } ()
        | none => .undefined)
      m1 with
  | .returned m2 _ =>
    .returned { m2 with freed := m2.freed ++ [.pointer_array m2.prob.x] } ()
  | .raised st e => .raised st e
  | .undefined => .undefined

/-- `cProblem_examples_set` (Ruby `Problem#set_examples`).  The labels are
doubles, on which `NUM2DBL` is the identity; the result is `INT2FIX(num)`. -/
def cProblem_examples_set {D : Type} [Zero D] (m : ProblemMem D)
    (labels_ary : List D) (examples_ary : List (List (svm_node D))) :
    Outcome (ProblemMem D) Int :=
  let num := rx_ary_size labels_ary
  if num ≠ rx_ary_size examples_ary then
    .raised m (.ArgumentError (examples_set_message num (rx_ary_size examples_ary)))
  else
    match (if m.prob.l > 0 then cProblem_examples_set_release m num
           else .returned m ()) with
    | .returned m1 _ =>
      let y := calloc num (0 : D)
      let y := (List.range num).foldl
        (fun y i =>
          match rb_ary_entry labels_ary i with
          | some label => y.set i label
          | none => y)
        y
      let x := examples_ary_to_internal examples_ary
      .returned { m1 with prob := { l := (num : Int), y := y, x := x } } (num : Int)
    | .raised st e => .raised st e
    | .undefined => .undefined

/-- `cProblem_examples` (Ruby `Problem#examples`): the pair of the label array
and the array of examples, each example decoded up to its terminator.  The
block `features` the function allocates is never used and is left out. -/
def cProblem_examples {D : Type} (m : ProblemMem D) :
    Outcome (ProblemMem D) (List D × List (List (svm_node D))) :=
  match (rb_ary_new2 m.prob.l : Except RubyError (List D)),
        (rb_ary_new2 m.prob.l : Except RubyError (List (List (svm_node D)))) with
  | .ok labels_ary, .ok examples_ary =>
    match for_loop m.prob.l.toNat
        (fun i (acc : List D × List (List (svm_node D))) =>
          match m.prob.y[i]?, m.prob.x[i]? with
          | some label, some node =>
            match cProblem_examples_scan node [] with
            | some example_ary =>
              .returned (rb_ary_push acc.1 label, rb_ary_push acc.2 example_ary) ()
            | none => .undefined
          | _, _ => .undefined)
        (labels_ary, examples_ary) with
    | .returned result _ => .returned m result
    | .raised _ e => .raised m e
    | .undefined => .undefined
  | .error e, _ => .raised m e
  | _, .error e => .raised m e

/-! ## Parameter Set -/

/-- Modelled from the spec: `struct svm_parameter` is declared in `svm.h` of
the engine, which is not part of the source.  The scalar hyperparameters and the
class-weight map as parallel arrays of size `nr_weight`. -/
structure svm_parameter (D : Type) where
  svm_type : Int
  kernel_type : Int
  degree : Int
  gamma : D
  coef0 : D
  cache_size : D
  eps : D
  C : D
  nr_weight : Int
  weight_label : List Int
  weight : List D
  nu : D
  p : D
  shrinking : Int
  probability : Int
  deriving DecidableEq

/-- A Parameter Set object together with the blocks it has released so far. -/
structure ParamMem (D : Type) where
  param : svm_parameter D
  freed : List (Released D)
  deriving DecidableEq

/-- `parameter_new`: `calloc(1, sizeof(struct svm_parameter))`, all fields zero. -/
def parameter_new {D : Type} [Zero D] : ParamMem D :=
  { param :=
      { svm_type := 0, kernel_type := 0, degree := 0, gamma := 0, coef0 := 0,
        cache_size := 0, eps := 0, C := 0, nr_weight := 0, weight_label := [],
        weight := [], nu := 0, p := 0, shrinking := 0, probability := 0 },
    freed := [] }

/-- Modelled from the spec: `rx_hash_size` is a macro of `ruby-ext.h`, which is
not part of the source; the spec calls it the entry count of the mapping.  A Ruby
Hash with Integer keys is the list of its entries in insertion order. -/
def rx_hash_size {D : Type} (hash : List (Int × D)) : Nat := hash.length

/-- Ruby `hash.keys`. -/
def rb_hash_keys {D : Type} (hash : List (Int × D)) : List Int := hash.map Prod.fst

/-- Ruby `rb_hash_aref(hash, key)`: the value stored under `key`, nil if none. -/
def rb_hash_aref {D : Type} (hash : List (Int × D)) (key : Int) : Option D :=
  List.lookup key hash

/-- Ruby `rb_hash_aset(hash, key, val)`: the value of an existing key is
replaced in place, a new key is appended. -/
def rb_hash_aset {D : Type} (hash : List (Int × D)) (key : Int) (val : D) :
    List (Int × D) :=
  if hash.any (fun e => e.1 == key) then
    hash.map (fun e => if e.1 == key then (key, val) else e)
  else hash ++ [(key, val)]

/-- `cSvmParameter_label_weights_set` (Ruby `SvmParameter#label_weights=`). -/
def cSvmParameter_label_weights_set {D : Type} [Zero D] (m : ParamMem D)
    (weight_hash : List (Int × D)) : Outcome (ParamMem D) Unit :=
  let m1 : ParamMem D :=
    if m.param.nr_weight > 0 then
      { m with freed := m.freed ++
          [.weight_array m.param.weight, .weight_label_array m.param.weight_label] }
    else m
  let nr_weight := rx_hash_size weight_hash
  let m2 : ParamMem D :=
    { m1 with param :=
        { m1.param with
          nr_weight := (nr_weight : Int)
          weight := calloc nr_weight (0 : D)
          weight_label := calloc nr_weight (0 : Int) } }
  let keys := rb_hash_keys weight_hash
  for_loop m2.param.nr_weight.toNat
    (fun i (st : ParamMem D) =>
      match rb_ary_entry keys i with
      | none => .raised st .TypeError
      | some key =>
        let val := rb_hash_aref weight_hash key
        match NUM2INT key with
        | .error e => .raised st e
        | .ok k =>
          let st1 : ParamMem D :=
            { st with param :=
                { st.param with weight_label := st.param.weight_label.set i k } }
          match val with
          | none => .raised st1 .TypeError
          | some w =>
            .returned
              { st1 with param := { st1.param with weight := st1.param.weight.set i w } }
              ())
    m2

/-- `cSvmParameter_label_weights` (Ruby `SvmParameter#label_weights`). -/
def cSvmParameter_label_weights {D : Type} (m : ParamMem D) :
    Outcome (ParamMem D) (List (Int × D)) :=
  match for_loop m.param.nr_weight.toNat
      (fun i (hash : List (Int × D)) =>
        match m.param.weight_label[i]?, m.param.weight[i]? with
        | some key, some val => .returned (rb_hash_aset hash key val) ()
        | _, _ => .undefined)
      [] with
  | .returned hash _ => .returned m hash
  | .raised _ e => .raised m e
  | .undefined => .undefined

/-! ## Model and the facade over the engine -/

/-- Modelled from the spec: `struct svm_model` is declared in `svm.h` of
the engine, which is not part of the source.  The binding reads the class count
`nr_class`; everything else is data of the engine alone. -/
structure svm_model where
  nr_class : Int
  engine_data : Nat
  deriving DecidableEq

/-- Modelled from the spec: the engine contract (section 6), whose code is the
external LIBSVM library.  `svm_check_parameter` yields a diagnostic string or
null; `svm_predict_values` and `svm_cross_validation` map the output buffer
they are handed to its content after the call, and since they fill it in
place the buffer keeps its size. -/
structure Engine (D : Type) where
  svm_check_parameter : svm_problem D → svm_parameter D → Option String
  svm_train : svm_problem D → svm_parameter D → svm_model
  svm_predict_values : svm_model → List (svm_node D) → List D → D × List D
  svm_cross_validation : svm_problem D → svm_parameter D → Int → List D → List D
  predict_values_in_place : ∀ (model : svm_model) (x : List (svm_node D))
    (dec_values : List D), (svm_predict_values model x dec_values).2.length = dec_values.length
  cross_validation_in_place : ∀ (prob : svm_problem D) (param : svm_parameter D)
    (nr_fold : Int) (target : List D),
    (svm_cross_validation prob param nr_fold target).length = target.length

/-- The entry points of the engine, as they appear in the log of calls. -/
inductive EngineCall where
  | svm_check_parameter
  | svm_train
  | svm_predict_values
  | svm_cross_validation
  deriving DecidableEq

/-- The text of the error of `train`: the format
`"Parameters not valid for Problem: %s"` with the diagnostic `%s` between two
single quotes (character `\x27`). -/
def train_message (check_error : String) : String :=
  "Parameters not valid for Problem: \x27" ++ check_error ++ "\x27"

/-- `cModel_class_train` (Ruby `Model.train`).  The state is the log of the
engine entry points called so far. -/
def cModel_class_train {D : Type} (E : Engine D) (prob : svm_problem D)
    (param : svm_parameter D) : Outcome (List EngineCall) svm_model :=
  let check_error := E.svm_check_parameter prob param
  let calls := [EngineCall.svm_check_parameter]
  match check_error with
  | some diagnostic => .raised calls (.ArgumentError (train_message diagnostic))
  | none =>
    let model := E.svm_train prob param
    .returned (calls ++ [EngineCall.svm_train]) model

/-- The size of the decision-value buffer of `cModel_predict_values`,
`if (nr_class > 2) n = nr_class * (nr_class - 1) / 2; else n = nr_class;`
in the arithmetic of C `int`. -/
def predict_values_size (nr_class : Int) : Int :=
  if nr_class > 2 then Int.tdiv (wrap_int (nr_class * wrap_int (nr_class - 1))) 2
  else nr_class

/-- `cModel_predict_values` (Ruby `Model#predict_values`): the predicted label
and the content of the decision-value buffer.  A negative `n` becomes a huge
`size_t`, for which `calloc` yields null and the function raises. -/
def cModel_predict_values {D : Type} [Zero D] (E : Engine D) (model : svm_model)
    (example_ary : List (svm_node D)) : Outcome (List EngineCall) (D × List D) :=
  let x := example_to_internal example_ary
  let n := predict_values_size model.nr_class
  if n < 0 then
    .raised [] (.NoMemError "on predict values estimates allocation")
  else
    let c_estimates := calloc n.toNat (0 : D)
    let r := E.svm_predict_values model x c_estimates
    let calls := [EngineCall.svm_predict_values]
    match for_loop n.toNat
        (fun i (estimates : List D) =>
          match r.2[i]? with
          | some v => .returned (rb_ary_push estimates v) ()
          | none => .undefined)
        [] with
    | .returned estimates _ => .returned calls (r.1, estimates)
    | .raised _ e => .raised calls e
    | .undefined => .undefined

/-- `cModel_class_cross_validation` (Ruby `Model.cross_validation`): the
content of the target buffer after the engine has run. -/
def cModel_class_cross_validation {D : Type} [Zero D] (E : Engine D)
    (prob : svm_problem D) (param : svm_parameter D) (num_fold : Int) :
    Outcome (List EngineCall) (List D) :=
  match NUM2INT num_fold with
  | .error e => .raised [] e
  | .ok nr_fold =>
    match (rb_ary_new2 prob.l : Except RubyError (List D)) with
    | .error e => .raised [] e
    | .ok target =>
      let target_ptr := calloc prob.l.toNat (0 : D)
      let filled := E.svm_cross_validation prob param nr_fold target_ptr
      let calls := [EngineCall.svm_cross_validation]
      match for_loop prob.l.toNat
          (fun i (target : List D) =>
            match filled[i]? with
            | some v => .returned (rb_ary_push target v) ()
            | none => .undefined)
          target with
      | .returned target _ => .returned calls target
      | .raised _ e => .raised calls e
      | .undefined => .undefined

/-! ## Auxiliary definitions of the statements -/

/-- The release events of the buffers at positions `0 .. k-1` of a pointer
array, in the order of the positions. -/
def released_examples {D : Type} (x : List (List (svm_node D))) (k : Nat) :
    List (Released D) :=
  (List.range k).map (fun i => Released.example_buffer i (x[i]?.getD []))

/-- The log of engine entry points a facade call ends with. -/
def engine_calls {α : Type} : Outcome (List EngineCall) α → List EngineCall
  | .returned st _ => st
  | .raised st _ => st
  | .undefined => []

/-- An engine for the concrete evaluations: it accepts every parameter set,
trains a two-class model, writes the decision value 7 at position 0 of the
buffer of `svm_predict_values` and predicts label 1, and writes the label 1 at
every position of the target buffer of `svm_cross_validation`. -/
def sample_engine : Engine Int where
  svm_check_parameter := fun _ _ => none
  svm_train := fun _ _ => { nr_class := 2, engine_data := 0 }
  svm_predict_values := fun _ _ dec_values => (1, dec_values.set 0 7)
  svm_cross_validation := fun _ _ _ target => target.map (fun _ => 1)
  predict_values_in_place := fun _ _ _ => by simp
  cross_validation_in_place := fun _ _ _ _ => by simp


/-! ## Loop lemmas -/

theorem copy_loop_take {α β : Type} (src : List β) (g : β → α)
    (step : List α → Nat → List α)
    (hstep : ∀ (x : List α) (j : Nat) (hj : j < src.length), step x j = x.set j (g src[j]))
    (k : Nat) (hk : k ≤ src.length) (x : List α) (hx : src.length ≤ x.length) :
    (List.range k).foldl step x = (src.take k).map g ++ x.drop k := by
  induction k with
  | zero => simp
  | succ k ih =>
    have hk1 : k < src.length := hk
    have hk2 : k < x.length := by omega
    have hlen : (List.map g (List.take k src)).length = k := by
      simp only [List.length_map, List.length_take]; omega
    rw [List.range_succ, List.foldl_append, ih (by omega)]
    simp only [List.foldl_cons, List.foldl_nil, hstep _ k hk1]
    rw [List.set_append_right _ _ (by omega), hlen, Nat.sub_self,
      List.drop_eq_getElem_cons hk2, List.set_cons_zero, List.take_succ,
      List.getElem?_eq_getElem hk1]
    simp only [Option.toList_some, List.map_append, List.map_cons, List.map_nil,
      List.append_assoc, List.singleton_append]

theorem copy_loop_full {α β : Type} (src : List β) (g : β → α)
    (step : List α → Nat → List α)
    (hstep : ∀ (x : List α) (j : Nat) (hj : j < src.length), step x j = x.set j (g src[j]))
    (x : List α) (hx : src.length ≤ x.length) :
    (List.range src.length).foldl step x = src.map g ++ x.drop src.length := by
  have h := copy_loop_take src g step hstep src.length (Nat.le_refl _) x hx
  simpa using h

theorem for_loop_zero {σ : Type} (body : Nat → σ → Outcome σ Unit) (s : σ) :
    for_loop 0 body s = .returned s () := rfl

theorem for_loop_succ {σ : Type} (n : Nat) (body : Nat → σ → Outcome σ Unit) (s : σ) :
    for_loop (n + 1) body s =
      match for_loop n body s with
      | .returned st _ => body n st
      | .raised st e => .raised st e
      | .undefined => .undefined := by
  simp [for_loop, List.range_succ, List.foldl_append]

/-! ## The codecs -/

theorem example_to_internal_eq {D : Type} [Zero D] (pairs : List (svm_node D)) :
    example_to_internal pairs = pairs ++ [TERMINATOR] := by
  unfold example_to_internal
  simp only [rx_ary_size, calloc]
  rw [copy_loop_full pairs id _
    (fun x j hj => by simp [rb_ary_entry, List.getElem?_eq_getElem hj]) _ (by simp)]
  simp [List.set_append_right]

theorem examples_ary_to_internal_eq {D : Type} [Zero D]
    (examples_ary : List (List (svm_node D))) :
    examples_ary_to_internal examples_ary = examples_ary.map example_to_internal := by
  unfold examples_ary_to_internal
  simp only [rx_ary_size, calloc]
  rw [copy_loop_full examples_ary example_to_internal _
    (fun x j hj => by simp [rb_ary_entry, List.getElem?_eq_getElem hj]) _ (by simp)]
  simp

theorem scan_append_terminator {D : Type} [Zero D] (pairs acc rest : List (svm_node D)) :
    cProblem_examples_scan (pairs ++ TERMINATOR :: rest) acc
      = some (acc ++ pairs.takeWhile (fun node => decide (node.index ≠ -1))) := by
  induction pairs generalizing acc with
  | nil => simp [cProblem_examples_scan, TERMINATOR]
  | cons node pairs ih =>
    by_cases h : node.index = -1
    · simp [cProblem_examples_scan, h]
    · simp [cProblem_examples_scan, h, ih, rb_ary_push]



theorem for_loop_undefined_add {σ : Type} (body : Nat → σ → Outcome σ Unit) (s : σ)
    (n : Nat) (h : for_loop n body s = .undefined) (j : Nat) :
    for_loop (n + j) body s = .undefined := by
  induction j with
  | zero => simpa using h
  | succ j ih => rw [← Nat.add_assoc, for_loop_succ, ih]

theorem push_loop_take {α β : Type} (a : List α) (b : List β)
    (body : Nat → List α × List β → Outcome (List α × List β) Unit)
    (hbody : ∀ (i : Nat) (acc : List α × List β) (hi : i < a.length) (hj : i < b.length),
      body i acc = .returned (rb_ary_push acc.1 a[i], rb_ary_push acc.2 b[i]) ())
    (k : Nat) (hk : k ≤ a.length) (hk2 : k ≤ b.length) :
    for_loop k body ([], []) = .returned (a.take k, b.take k) () := by
  induction k with
  | zero => simp [for_loop_zero]
  | succ k ih =>
    have h1 : k < a.length := hk
    have h2 : k < b.length := hk2
    rw [for_loop_succ, ih (by omega) (by omega)]
    simp only [hbody k _ h1 h2, rb_ary_push, List.take_succ, List.getElem?_eq_getElem h1,
      List.getElem?_eq_getElem h2, Option.toList_some]

theorem release_loop_take {D : Type} (m : ProblemMem D)
    (body : Nat → ProblemMem D → Outcome (ProblemMem D) Unit)
    (hbody : ∀ (i : Nat) (st : ProblemMem D) (hi : i < m.prob.x.length),
      st.prob = m.prob →
      body i st = .returned { st with freed := st.freed ++ [.example_buffer i m.prob.x[i]] } ())
    (k : Nat) (hk : k ≤ m.prob.x.length) :
    for_loop k body m
      = .returned { prob := m.prob, freed := m.freed ++ released_examples m.prob.x k } () := by
  induction k with
  | zero => simp [for_loop_zero, released_examples]
  | succ k ih =>
    have h1 : k < m.prob.x.length := hk
    rw [for_loop_succ, ih (by omega)]
    dsimp only
    refine (hbody k { prob := m.prob, freed := m.freed ++ released_examples m.prob.x k }
      h1 rfl).trans ?_
    simp [released_examples, List.range_succ, List.getElem?_eq_getElem h1]

theorem release_ok {D : Type} (m : ProblemMem D) (num : Nat) (h : num ≤ m.prob.x.length) :
    cProblem_examples_set_release m num
      = .returned
          { prob := m.prob,
            freed := m.freed ++ [.label_array m.prob.y] ++ released_examples m.prob.x num
              ++ [.pointer_array m.prob.x] } () := by
  unfold cProblem_examples_set_release
  dsimp only
  rw [release_loop_take { m with freed := m.freed ++ [.label_array m.prob.y] } _
    (fun i st hi hst => by
      have hi2 : i < m.prob.x.length := hi
      have hst2 : st.prob = m.prob := hst
      simp [hst2, List.getElem?_eq_getElem hi2]) num h]

theorem release_undefined {D : Type} (m : ProblemMem D) (num : Nat)
    (h : m.prob.x.length < num) :
    cProblem_examples_set_release m num = .undefined := by
  unfold cProblem_examples_set_release
  obtain ⟨j, rfl⟩ : ∃ j, num = (m.prob.x.length + 1) + j :=
    ⟨num - (m.prob.x.length + 1), by omega⟩
  dsimp only
  rw [for_loop_undefined_add _ _ _ ?_ j]
  rw [for_loop_succ, release_loop_take { m with freed := m.freed ++ [.label_array m.prob.y] } _
    (fun i st hi hst => by
      have hi2 : i < m.prob.x.length := hi
      have hst2 : st.prob = m.prob := hst
      simp [hst2, List.getElem?_eq_getElem hi2]) _ (Nat.le_refl _)]
  simp

/-- What `set_examples` does when the lengths agree and the release loop stays
inside the old pointer array. -/
theorem set_examples_returned {D : Type} [Zero D] (m : ProblemMem D)
    (labels_ary : List D) (examples_ary : List (List (svm_node D)))
    (hlen : labels_ary.length = examples_ary.length)
    (hprior : m.prob.l ≤ 0 ∨ labels_ary.length ≤ m.prob.x.length) :
    cProblem_examples_set m labels_ary examples_ary
      = .returned
          { prob :=
              { l := (labels_ary.length : Int), y := labels_ary,
                x := examples_ary.map (fun e => e ++ [TERMINATOR]) },
            freed :=
              if m.prob.l > 0 then
                m.freed ++ [.label_array m.prob.y]
                  ++ released_examples m.prob.x labels_ary.length
                  ++ [.pointer_array m.prob.x]
              else m.freed }
          (labels_ary.length : Int) := by
  have hx : examples_ary_to_internal examples_ary
      = examples_ary.map (fun e => e ++ [TERMINATOR]) := by
    rw [examples_ary_to_internal_eq]
    exact List.map_congr_left (fun e _ => example_to_internal_eq e)
  unfold cProblem_examples_set
  simp only [rx_ary_size, calloc]
  rw [if_neg (by simpa using hlen), hx,
    copy_loop_full labels_ary id _
      (fun x j hj => by simp [rb_ary_entry, List.getElem?_eq_getElem hj]) _ (by simp)]
  by_cases hl : m.prob.l > 0
  · have hn : labels_ary.length ≤ m.prob.x.length := by
      rcases hprior with h | h
      · omega
      · exact h
    simp [hl, release_ok m _ hn]
  · simp [hl]

/-- With a non-empty Problem and more new examples than old ones the release
loop reads past the end of the old pointer array. -/
theorem set_examples_undefined {D : Type} [Zero D] (m : ProblemMem D)
    (labels_ary : List D) (examples_ary : List (List (svm_node D)))
    (hlen : labels_ary.length = examples_ary.length)
    (hl : m.prob.l > 0) (hn : m.prob.x.length < labels_ary.length) :
    cProblem_examples_set m labels_ary examples_ary = .undefined := by
  unfold cProblem_examples_set
  simp only [rx_ary_size]
  rw [if_neg (by simpa using hlen)]
  simp [hl, release_undefined m _ hn]

theorem examples_returned {D : Type} [Zero D] (freed : List (Released D))
    (labels_ary : List D) (examples_ary : List (List (svm_node D)))
    (hlen : labels_ary.length = examples_ary.length) :
    cProblem_examples
        { prob :=
            { l := (labels_ary.length : Int), y := labels_ary,
              x := examples_ary.map (fun e => e ++ [TERMINATOR]) },
          freed := freed }
      = .returned
          { prob :=
              { l := (labels_ary.length : Int), y := labels_ary,
                x := examples_ary.map (fun e => e ++ [TERMINATOR]) },
            freed := freed }
          (labels_ary,
            examples_ary.map (fun e => e.takeWhile (fun node => decide (node.index ≠ -1)))) := by
  unfold cProblem_examples
  have hneg : ¬ ((labels_ary.length : Int) < 0) := by omega
  simp only [rb_ary_new2, hneg, if_false, Int.toNat_ofNat]
  rw [push_loop_take labels_ary
    (examples_ary.map (fun e => e.takeWhile (fun node => decide (node.index ≠ -1)))) _
    (fun i acc hi hj => by
      have hj2 : i < examples_ary.length := by simpa using hj
      simp [List.getElem?_eq_getElem hi, List.getElem?_eq_getElem hj2,
        scan_append_terminator])
    labels_ary.length (Nat.le_refl _) (by simp [hlen])]
  simp [hlen]



/-! ## Problem: the settled claims -/

/-- C1 (counterexample): on a fresh Problem, `set_examples([1.0], [[(-1, 5.0)]])`
returns 1, and `examples()` right after it returns `([1.0], [[]])`: the entry
with index -1 is read as the terminator, so the example comes back empty and
not equal to the one that was stored. -/
theorem examples_roundtrip_counterexample :
    cProblem_examples_set (problem_new : ProblemMem Int) [1] [[{ index := -1, value := 5 }]]
        = .returned
            { prob :=
                { l := 1, y := [1],
                  x := [[{ index := -1, value := 5 }, { index := -1, value := 0 }]] },
              freed := [] } 1
      ∧ cProblem_examples
          ({ prob :=
              { l := 1, y := [1],
                x := [[{ index := -1, value := 5 }, { index := -1, value := 0 }]] },
             freed := [] } : ProblemMem Int)
        = .returned
            { prob :=
                { l := 1, y := [1],
                  x := [[{ index := -1, value := 5 }, { index := -1, value := 0 }]] },
              freed := [] } ([1], [[]])
      ∧ (([1], [[]]) : List Int × List (List (svm_node Int)))
          ≠ ([1], [[{ index := -1, value := 5 }]]) := by
  decide

/-- C1 (amended): for every example set `(labels, examples)` with
`len(labels) == len(examples)` in which no entry has index -1, and every
Problem that is empty or holds at least `len(labels)` examples,
`set_examples(labels, examples)` returns the count and `examples()` called
right after it returns `(labels, examples)`: the same labels in the same
order and each example the same ordered sequence of entries. -/
theorem examples_after_set_examples {D : Type} [Zero D] (m : ProblemMem D)
    (labels : List D) (examples : List (List (svm_node D)))
    (hlen : labels.length = examples.length)
    (hidx : ∀ e ∈ examples, ∀ node ∈ e, node.index ≠ -1)
    (hprior : m.prob.l ≤ 0 ∨ labels.length ≤ m.prob.x.length) :
    ∃ m2 : ProblemMem D,
      cProblem_examples_set m labels examples = .returned m2 (labels.length : Int)
        ∧ cProblem_examples m2 = .returned m2 (labels, examples) := by
  refine ⟨_, set_examples_returned m labels examples hlen hprior, ?_⟩
  rw [examples_returned _ labels examples hlen]
  have hdec : examples.map (fun e => e.takeWhile (fun node => decide (node.index ≠ -1)))
      = examples := by
    conv_rhs => rw [← List.map_id examples]
    refine List.map_congr_left (fun e he => ?_)
    simp only [id]
    exact List.takeWhile_eq_self_iff.mpr (fun node hnode => by simpa using hidx e he node hnode)
  rw [hdec]

/-- C1 (witness): a Problem that holds two examples is given one new example. -/
theorem examples_after_set_examples_witness :
    ([7] : List Int).length = [[({ index := 2, value := 9 } : svm_node Int)]].length
      ∧ (∀ e ∈ [[({ index := 2, value := 9 } : svm_node Int)]], ∀ node ∈ e, node.index ≠ -1)
      ∧ ∃ m2 : ProblemMem Int,
          cProblem_examples_set
              ({ prob :=
                  { l := 2, y := [1, 2],
                    x := [[{ index := 0, value := 4 }, { index := -1, value := 0 }],
                          [{ index := -1, value := 0 }]] },
                 freed := [] } : ProblemMem Int)
              [7] [[{ index := 2, value := 9 }]]
            = .returned m2 (([7] : List Int).length : Int)
          ∧ cProblem_examples m2 = .returned m2 ([7], [[{ index := 2, value := 9 }]]) :=
  ⟨by decide, by decide,
    examples_after_set_examples
      ({ prob :=
          { l := 2, y := [1, 2],
            x := [[{ index := 0, value := 4 }, { index := -1, value := 0 }],
                  [{ index := -1, value := 0 }]] },
         freed := [] } : ProblemMem Int)
      [7] [[{ index := 2, value := 9 }]] (by decide) (by decide) (Or.inr (by decide))⟩

/-- C2: for every ordered sequence of (index, value) pairs whose indices are
non-negative and strictly increasing, the scan loop of `cProblem_examples` run
on the buffer built by `example_to_internal` yields exactly the original
sequence. -/
theorem decode_encode_roundtrip {D : Type} [Zero D] (pairs : List (svm_node D))
    (hnonneg : ∀ node ∈ pairs, 0 ≤ node.index)
    (_hincr : List.Pairwise (fun a b : svm_node D => a.index < b.index) pairs) :
    cProblem_examples_scan (example_to_internal pairs) [] = some pairs := by
  rw [example_to_internal_eq, scan_append_terminator]
  have h : pairs.takeWhile (fun node => decide (node.index ≠ -1)) = pairs :=
    List.takeWhile_eq_self_iff.mpr (fun node hnode => by
      have := hnonneg node hnode
      simp only [ne_eq, decide_eq_true_eq]
      omega)
  rw [h, List.nil_append]

/-- C2 (witness): the pairs (0, 1.0), (3, 2.0). -/
theorem decode_encode_roundtrip_witness :
    (∀ node ∈ [({ index := 0, value := 1 } : svm_node Int), { index := 3, value := 2 }],
        0 ≤ node.index)
      ∧ List.Pairwise (fun a b : svm_node Int => a.index < b.index)
          [{ index := 0, value := 1 }, { index := 3, value := 2 }]
      ∧ cProblem_examples_scan
          (example_to_internal
            [({ index := 0, value := 1 } : svm_node Int), { index := 3, value := 2 }]) []
        = some [{ index := 0, value := 1 }, { index := 3, value := 2 }] :=
  ⟨by decide, by decide, decode_encode_roundtrip _ (by decide) (by decide)⟩

/-- C3: for every Problem state and every `(labels, examples)` with
`len(labels) != len(examples)`, `set_examples` raises an ArgumentError whose
message reports both lengths, and the Problem (count, label array, example
buffers, and the blocks released so far) is exactly what it was before. -/
theorem set_examples_length_mismatch {D : Type} [Zero D] (m : ProblemMem D)
    (labels : List D) (examples : List (List (svm_node D)))
    (hne : labels.length ≠ examples.length) :
    cProblem_examples_set m labels examples
      = .raised m
          (.ArgumentError
            ("Number of labels (" ++ toString labels.length
              ++ ") does not match number of features (" ++ toString examples.length
              ++ ").")) := by
  unfold cProblem_examples_set
  simp only [rx_ary_size]
  rw [if_pos hne]
  rfl

/-- C3 (witness): a Problem holding one example is given two labels and one
example. -/
theorem set_examples_length_mismatch_witness :
    ([5, 6] : List Int).length ≠ [[({ index := 1, value := 1 } : svm_node Int)]].length
      ∧ cProblem_examples_set
          ({ prob := { l := 1, y := [1], x := [[{ index := -1, value := 0 }]] },
             freed := [] } : ProblemMem Int)
          [5, 6] [[{ index := 1, value := 1 }]]
        = .raised
            { prob := { l := 1, y := [1], x := [[{ index := -1, value := 0 }]] },
              freed := [] }
            (.ArgumentError "Number of labels (2) does not match number of features (1).") :=
  ⟨by decide,
    (set_examples_length_mismatch
      ({ prob := { l := 1, y := [1], x := [[{ index := -1, value := 0 }]] },
         freed := [] } : ProblemMem Int)
      [5, 6] [[{ index := 1, value := 1 }]] (by decide)).trans (by decide)⟩

/-- C8 (the code at the failing input): a fresh Problem is given one example
and then two.  The second call enters the release block (`l = 1 > 0`) and its
loop runs to `num = 2`, so it reads `*(prob->x+1)` past the end of the old
one-element pointer array and hands it to `free`: the call has no defined
result, it does not return 2. -/
theorem set_examples_growing_is_undefined :
    cProblem_examples_set (problem_new : ProblemMem Int) [1] [[{ index := 0, value := 1 }]]
        = .returned
            { prob :=
                { l := 1, y := [1],
                  x := [[{ index := 0, value := 1 }, { index := -1, value := 0 }]] },
              freed := [] } 1
      ∧ cProblem_examples_set
          ({ prob :=
              { l := 1, y := [1],
                x := [[{ index := 0, value := 1 }, { index := -1, value := 0 }]] },
             freed := [] } : ProblemMem Int)
          [1, 2] [[{ index := 0, value := 1 }], [{ index := 1, value := 1 }]]
        = .undefined := by
  decide

/-- C9: for every ordered sequence `pairs` (no assumption on the indices) the
buffer built by `example_to_internal` has exactly `len(pairs) + 1` entries,
its entry `j` is `pairs[j]` for every `j < len(pairs)`, and its last entry is
the sentinel `{ index: -1, value: 0.0 }`. -/
theorem example_to_internal_layout {D : Type} [Zero D] (pairs : List (svm_node D)) :
    (example_to_internal pairs).length = pairs.length + 1
      ∧ (∀ j : Fin pairs.length, (example_to_internal pairs)[j.val]? = some (pairs.get j))
      ∧ (example_to_internal pairs)[pairs.length]? = some { index := -1, value := 0 } := by
  rw [example_to_internal_eq]
  refine ⟨by simp, fun j => ?_, ?_⟩
  · rw [List.getElem?_append_left j.isLt, List.getElem?_eq_getElem j.isLt]
    rfl
  · simp [TERMINATOR]

/-- C10 (the code at the failing inputs): the release loop of `set_examples`
runs over the NEW count.  A Problem holding two examples that is given one
example releases the label array, the buffer at position 0 and the pointer
array, and never the old buffer at position 1.  A Problem holding one example
that is given three reads positions 1 and 2 of its one-element pointer array:
undefined behaviour. -/
theorem set_examples_release_uses_new_count :
    cProblem_examples_set
        ({ prob :=
            { l := 2, y := [1, 2],
              x := [[{ index := 0, value := 4 }, { index := -1, value := 0 }],
                    [{ index := 5, value := 6 }, { index := -1, value := 0 }]] },
           freed := [] } : ProblemMem Int)
        [7] [[{ index := 2, value := 9 }]]
      = .returned
          { prob :=
              { l := 1, y := [7],
                x := [[{ index := 2, value := 9 }, { index := -1, value := 0 }]] },
            freed :=
              [.label_array [1, 2],
               .example_buffer 0 [{ index := 0, value := 4 }, { index := -1, value := 0 }],
               .pointer_array
                 [[{ index := 0, value := 4 }, { index := -1, value := 0 }],
                  [{ index := 5, value := 6 }, { index := -1, value := 0 }]]] } 1
    ∧ cProblem_examples_set
        ({ prob :=
            { l := 1, y := [1],
              x := [[{ index := 0, value := 4 }, { index := -1, value := 0 }]] },
           freed := [] } : ProblemMem Int)
        [7, 8, 9] [[], [], []]
      = .undefined := by
  decide



/-! ## Parameter Set: the class-weight map -/

theorem set_take_drop {α β : Type} (src : List β) (g : β → α) (x : List α) (k : Nat)
    (hk : k < src.length) (hx : src.length ≤ x.length) :
    ((src.take k).map g ++ x.drop k).set k (g src[k])
      = (src.take (k + 1)).map g ++ x.drop (k + 1) := by
  have hk2 : k < x.length := by omega
  have hlen : (List.map g (List.take k src)).length = k := by
    simp only [List.length_map, List.length_take]; omega
  rw [List.set_append_right _ _ (by omega), hlen, Nat.sub_self,
    List.drop_eq_getElem_cons hk2, List.set_cons_zero, List.take_succ,
    List.getElem?_eq_getElem hk]
  simp only [Option.toList_some, List.map_append, List.map_cons, List.map_nil,
    List.append_assoc, List.singleton_append]

theorem lookup_getElem_of_nodup {D : Type} (hash : List (Int × D))
    (hkeys : (hash.map Prod.fst).Nodup) (i : Nat) (hi : i < hash.length) :
    List.lookup hash[i].1 hash = some hash[i].2 := by
  induction hash generalizing i with
  | nil => simp at hi
  | cons e t ih =>
    obtain ⟨k, v⟩ := e
    simp only [List.map_cons, List.nodup_cons] at hkeys
    cases i with
    | zero => simp [List.lookup_cons]
    | succ i =>
      have hi2 : i < t.length := by simpa using hi
      have hne : t[i].1 ≠ k := by
        intro h
        exact hkeys.1 (h ▸ List.mem_map_of_mem Prod.fst (List.getElem_mem hi2))
      simp only [List.getElem_cons_succ, List.lookup_cons]
      have hb : (t[i].1 == k) = false := by simpa using hne
      rw [hb]
      exact ih hkeys.2 i hi2

theorem key_not_in_take {D : Type} (hash : List (Int × D))
    (hkeys : (hash.map Prod.fst).Nodup) (k : Nat) (hk : k < hash.length) :
    ∀ e ∈ hash.take k, ¬ e.1 = hash[k].1 := by
  intro e he heq
  obtain ⟨j, hj, hje⟩ := List.mem_take_iff_getElem.mp he
  have hjk : j < k := by omega
  have hj2 : j < hash.length := by omega
  have hj3 : j < (hash.map Prod.fst).length := by simpa using hj2
  have hk3 : k < (hash.map Prod.fst).length := by simpa using hk
  have h1 : (hash.map Prod.fst)[j] = (hash.map Prod.fst)[k] := by
    simp only [List.getElem_map]
    rw [hje]; exact heq
  have := (List.Nodup.getElem_inj_iff hkeys).mp h1
  omega

theorem rb_hash_aset_fresh {D : Type} (hash : List (Int × D)) (key : Int) (val : D)
    (hfresh : ∀ e ∈ hash, ¬ e.1 = key) :
    rb_hash_aset hash key val = hash ++ [(key, val)] := by
  unfold rb_hash_aset
  have h : hash.any (fun e => e.1 == key) = false := by
    simpa [List.any_eq_false] using hfresh
  simp [h]

theorem weights_set_loop {D : Type} (m2 : ParamMem D) (hash : List (Int × D))
    (body : Nat → ParamMem D → Outcome (ParamMem D) Unit)
    (hbody : ∀ (i : Nat) (st : ParamMem D) (hi : i < hash.length),
      body i st = .returned
        { st with param :=
            { st.param with
              weight_label := st.param.weight_label.set i hash[i].1
              weight := st.param.weight.set i hash[i].2 } } ())
    (hl : hash.length ≤ m2.param.weight_label.length)
    (hw : hash.length ≤ m2.param.weight.length)
    (k : Nat) (hk : k ≤ hash.length) :
    for_loop k body m2 = .returned
      { m2 with param :=
          { m2.param with
            weight_label := (hash.take k).map Prod.fst ++ m2.param.weight_label.drop k
            weight := (hash.take k).map Prod.snd ++ m2.param.weight.drop k } } () := by
  induction k with
  | zero => simp [for_loop_zero]
  | succ k ih =>
    have h1 : k < hash.length := hk
    rw [for_loop_succ, ih (by omega)]
    dsimp only
    rw [hbody k _ h1]
    dsimp only
    rw [set_take_drop hash Prod.fst _ k h1 hl, set_take_drop hash Prod.snd _ k h1 hw]

theorem weights_get_loop {D : Type} (hash : List (Int × D))
    (hkeys : (hash.map Prod.fst).Nodup)
    (body : Nat → List (Int × D) → Outcome (List (Int × D)) Unit)
    (hbody : ∀ (i : Nat) (acc : List (Int × D)) (hi : i < hash.length),
      body i acc = .returned (rb_hash_aset acc hash[i].1 hash[i].2) ())
    (k : Nat) (hk : k ≤ hash.length) :
    for_loop k body [] = .returned (hash.take k) () := by
  induction k with
  | zero => simp [for_loop_zero]
  | succ k ih =>
    have h1 : k < hash.length := hk
    rw [for_loop_succ, ih (by omega)]
    dsimp only
    rw [hbody k _ h1, rb_hash_aset_fresh _ _ _ (key_not_in_take hash hkeys k h1),
      List.take_succ, List.getElem?_eq_getElem h1]
    rfl

/-- What `label_weights=` leaves in the Parameter Set for a Hash whose keys
fit C `int`. -/
theorem label_weights_set_returned {D : Type} [Zero D] (m : ParamMem D)
    (weight_hash : List (Int × D))
    (hkeys : (weight_hash.map Prod.fst).Nodup)
    (hint : ∀ e ∈ weight_hash, -2147483648 ≤ e.1 ∧ e.1 ≤ 2147483647) :
    cSvmParameter_label_weights_set m weight_hash
      = .returned
          { param :=
              { m.param with
                nr_weight := (weight_hash.length : Int)
                weight_label := weight_hash.map Prod.fst
                weight := weight_hash.map Prod.snd },
            freed :=
              if m.param.nr_weight > 0 then
                m.freed ++
                  [.weight_array m.param.weight, .weight_label_array m.param.weight_label]
              else m.freed } () := by
  unfold cSvmParameter_label_weights_set
  simp only [rx_hash_size, calloc, Int.toNat_ofNat]
  rw [weights_set_loop _ weight_hash _
    (fun i st hi => by
      have hr := hint weight_hash[i] (List.getElem_mem hi)
      simp [rb_ary_entry, List.getElem?_eq_getElem hi, rb_hash_keys, NUM2INT, hr.1, hr.2,
        rb_hash_aref, lookup_getElem_of_nodup weight_hash hkeys i hi])
    (by simp) (by simp) weight_hash.length (Nat.le_refl _)]
  by_cases h : m.param.nr_weight > 0 <;> simp [h]

theorem label_weights_returned {D : Type} (param : svm_parameter D)
    (freed : List (Released D)) (weight_hash : List (Int × D))
    (hkeys : (weight_hash.map Prod.fst).Nodup) :
    cSvmParameter_label_weights
        { param :=
            { param with
              nr_weight := (weight_hash.length : Int)
              weight_label := weight_hash.map Prod.fst
              weight := weight_hash.map Prod.snd },
          freed := freed }
      = .returned
          { param :=
              { param with
                nr_weight := (weight_hash.length : Int)
                weight_label := weight_hash.map Prod.fst
                weight := weight_hash.map Prod.snd },
            freed := freed }
          weight_hash := by
  unfold cSvmParameter_label_weights
  simp only [Int.toNat_ofNat]
  rw [weights_get_loop weight_hash hkeys _
    (fun i acc hi => by simp [List.getElem?_eq_getElem hi])
    weight_hash.length (Nat.le_refl _)]
  simp

/-- C4: for every mapping `m` from integer class labels (C `int`) to double
weights, the empty mapping included, and whatever weights the Parameter Set
held before, `label_weights()` called after `label_weights = m` returns a
mapping with exactly the entries of `m`. -/
theorem label_weights_roundtrip {D : Type} [Zero D] (pm : ParamMem D)
    (m : List (Int × D))
    (hkeys : (m.map Prod.fst).Nodup)
    (hint : ∀ e ∈ m, -2147483648 ≤ e.1 ∧ e.1 ≤ 2147483647) :
    ∃ (pm2 : ParamMem D) (m2 : List (Int × D)),
      cSvmParameter_label_weights_set pm m = .returned pm2 ()
        ∧ cSvmParameter_label_weights pm2 = .returned pm2 m2
        ∧ (∀ e, e ∈ m2 ↔ e ∈ m)
        ∧ (m2.map Prod.fst).Nodup
        ∧ m2.length = m.length :=
  ⟨_, m, label_weights_set_returned pm m hkeys hint,
    label_weights_returned _ _ m hkeys, fun _ => Iff.rfl, hkeys, rfl⟩

/-- C4 (witness): a Parameter Set that already holds one weight is given the
mapping 1 => 5.0, -1 => 2.0. -/
theorem label_weights_roundtrip_witness :
    (([(1, 5), (-1, 2)] : List (Int × Int)).map Prod.fst).Nodup
      ∧ (∀ e ∈ ([(1, 5), (-1, 2)] : List (Int × Int)),
          -2147483648 ≤ e.1 ∧ e.1 ≤ 2147483647)
      ∧ ∃ (pm2 : ParamMem Int) (m2 : List (Int × Int)),
          cSvmParameter_label_weights_set
              ({ (parameter_new : ParamMem Int) with
                  param :=
                    { (parameter_new : ParamMem Int).param with
                      nr_weight := 1, weight_label := [3], weight := [9] } } : ParamMem Int)
              [(1, 5), (-1, 2)]
            = .returned pm2 ()
          ∧ cSvmParameter_label_weights pm2 = .returned pm2 m2
          ∧ (∀ e, e ∈ m2 ↔ e ∈ ([(1, 5), (-1, 2)] : List (Int × Int)))
          ∧ (m2.map Prod.fst).Nodup
          ∧ m2.length = ([(1, 5), (-1, 2)] : List (Int × Int)).length :=
  ⟨by decide, by decide, label_weights_roundtrip _ [(1, 5), (-1, 2)] (by decide) (by decide)⟩



/-! ## The facade over the engine -/

theorem push_loop_single {α : Type} (buf : List α)
    (body : Nat → List α → Outcome (List α) Unit)
    (hbody : ∀ (i : Nat) (acc : List α) (hi : i < buf.length),
      body i acc = .returned (rb_ary_push acc buf[i]) ())
    (acc0 : List α) (k : Nat) (hk : k ≤ buf.length) :
    for_loop k body acc0 = .returned (acc0 ++ buf.take k) () := by
  induction k with
  | zero => simp [for_loop_zero]
  | succ k ih =>
    have h1 : k < buf.length := hk
    rw [for_loop_succ, ih (by omega)]
    dsimp only
    rw [hbody k _ h1, List.take_succ, List.getElem?_eq_getElem h1]
    simp [rb_ary_push]

theorem wrap_int_of_fits (z : Int) (h0 : 0 ≤ z) (h1 : z ≤ 2147483647) : wrap_int z = z := by
  unfold wrap_int
  omega

theorem predict_values_size_of_nat (k : Nat) (hfit : k * (k - 1) ≤ 2147483647) :
    predict_values_size (k : Int) = ((if 2 < k then k * (k - 1) / 2 else k : Nat) : Int) := by
  unfold predict_values_size
  by_cases h : 2 < k
  · have hk : ((k : Int) > 2) := by omega
    have hle : k - 1 ≤ k * (k - 1) := Nat.le_mul_of_pos_left _ (by omega)
    have hcast : (k : Int) - 1 = ((k - 1 : Nat) : Int) := by omega
    have hmul : (k : Int) * ((k - 1 : Nat) : Int) = ((k * (k - 1) : Nat) : Int) := by
      push_cast; rfl
    rw [if_pos hk, if_pos h, hcast,
      wrap_int_of_fits ((k - 1 : Nat) : Int) (by omega) (by omega), hmul,
      wrap_int_of_fits ((k * (k - 1) : Nat) : Int) (by omega) (by omega),
      Int.tdiv_eq_ediv (by omega) (by omega)]
    norm_cast
  · have hk : ¬ ((k : Int) > 2) := by omega
    rw [if_neg hk, if_neg h]

/-- C5 (counterexample): a Model with 2 classes.  The branch taken is
`n = model->nr_class`, so the buffer has 2 cells and `predict_values` returns
2 decision values (the second is the zero `calloc` left there), not 1. -/
theorem predict_values_two_classes_counterexample :
    cModel_predict_values sample_engine { nr_class := 2, engine_data := 0 }
        [{ index := 0, value := 1 }]
      = .returned [EngineCall.svm_predict_values] (1, [7, 0])
    ∧ ([7, 0] : List Int).length ≠ 1 := by
  decide

/-- C5 (amended): for every Model with `k` classes, `k * (k - 1)` within the
range of C `int`, the decision-value sequence returned by `predict_values` has
exactly `k` elements when `k <= 2` (2 elements for a 2-class Model) and
exactly `k * (k - 1) / 2` elements when `k > 2`. -/
theorem predict_values_count {D : Type} [Zero D] (E : Engine D) (model : svm_model)
    (example_ary : List (svm_node D)) (k : Nat)
    (hk : model.nr_class = (k : Int)) (hfit : k * (k - 1) ≤ 2147483647) :
    ∃ (label : D) (values : List D),
      cModel_predict_values E model example_ary
          = .returned [EngineCall.svm_predict_values] (label, values)
        ∧ values.length = (if 2 < k then k * (k - 1) / 2 else k) := by
  unfold cModel_predict_values
  simp only [hk, predict_values_size_of_nat k hfit, Int.toNat_ofNat, calloc]
  rw [if_neg (by omega)]
  generalize hn : (if 2 < k then k * (k - 1) / 2 else k) = n
  have hlen := E.predict_values_in_place model (example_to_internal example_ary)
    (List.replicate n 0)
  simp only [List.length_replicate] at hlen
  rw [push_loop_single
    (E.svm_predict_values model (example_to_internal example_ary) (List.replicate n 0)).2 _
    (fun i acc hi => by simp [List.getElem?_eq_getElem hi]) [] n (by omega)]
  refine ⟨_, _, rfl, ?_⟩
  simp [hlen]

/-- C5 (witness): a Model with 3 classes yields 3 decision values. -/
theorem predict_values_count_witness :
    ({ nr_class := 3, engine_data := 0 } : svm_model).nr_class = ((3 : Nat) : Int)
      ∧ 3 * (3 - 1) ≤ 2147483647
      ∧ ∃ (label : Int) (values : List Int),
          cModel_predict_values sample_engine { nr_class := 3, engine_data := 0 }
              [{ index := 0, value := 1 }]
            = .returned [EngineCall.svm_predict_values] (label, values)
          ∧ values.length = (if 2 < 3 then 3 * (3 - 1) / 2 else 3) :=
  ⟨by decide, by decide,
    predict_values_count sample_engine { nr_class := 3, engine_data := 0 }
      [{ index := 0, value := 1 }] 3 (by decide) (by decide)⟩

/-- C6: for every Problem and Parameter Set, when the parameter check of the
engine returns a diagnostic, `train` raises an error whose message carries that
diagnostic, only the check has been called and no Model is produced; when the
check returns null, the training entry point is called and its Model is
returned; so the training entry point is invoked exactly when the check
returns null. -/
theorem train_checks_parameters_first {D : Type} (E : Engine D) (prob : svm_problem D)
    (param : svm_parameter D) :
    (∀ diagnostic : String, E.svm_check_parameter prob param = some diagnostic →
        cModel_class_train E prob param
          = .raised [EngineCall.svm_check_parameter]
              (.ArgumentError
                ("Parameters not valid for Problem: \x27" ++ diagnostic ++ "\x27")))
      ∧ (E.svm_check_parameter prob param = none →
          cModel_class_train E prob param
            = .returned [EngineCall.svm_check_parameter, EngineCall.svm_train]
                (E.svm_train prob param))
      ∧ (EngineCall.svm_train ∈ engine_calls (cModel_class_train E prob param)
          ↔ E.svm_check_parameter prob param = none) := by
  unfold cModel_class_train
  cases h : E.svm_check_parameter prob param with
  | none => simp [engine_calls]
  | some d => simp [engine_calls, train_message]

/-- C7: for every Problem holding `l` examples, every Parameter Set and every
fold count (a C `int`), `cross_validation` calls the engine once and returns a
sequence of exactly `l` labels whose i-th element is the content of position
`i` of the `l`-sized target buffer after the engine has filled it, for every
`i` in `0 .. l-1`. -/
theorem cross_validation_returns_target {D : Type} [Zero D] (E : Engine D)
    (prob : svm_problem D) (param : svm_parameter D) (num_fold : Int) (l : Nat)
    (hl : prob.l = (l : Int))
    (hfold : -2147483648 ≤ num_fold ∧ num_fold ≤ 2147483647) :
    ∃ target : List D,
      cModel_class_cross_validation E prob param num_fold
          = .returned [EngineCall.svm_cross_validation] target
        ∧ target.length = l
        ∧ ∀ i : Fin l,
            target[i.val]?
              = (E.svm_cross_validation prob param num_fold (calloc l (0 : D)))[i.val]? := by
  unfold cModel_class_cross_validation
  simp only [NUM2INT, hfold, and_self, if_true, rb_ary_new2, hl, Int.toNat_ofNat]
  rw [if_neg (by omega)]
  have hlen := E.cross_validation_in_place prob param num_fold (calloc l (0 : D))
  simp only [calloc, List.length_replicate] at hlen
  dsimp only
  rw [push_loop_single (E.svm_cross_validation prob param num_fold (calloc l (0 : D))) _
    (fun i acc hi => by simp [List.getElem?_eq_getElem hi]) [] l (by simp only [calloc]; omega)]
  refine ⟨_, rfl, ?_, fun i => ?_⟩
  · simp [calloc, hlen]
  · simp [calloc, hlen]

/-- C7 (witness): a Problem holding two examples, three folds. -/
theorem cross_validation_returns_target_witness :
    ({ l := 2, y := [1, 2],
       x := [[{ index := -1, value := 0 }], [{ index := -1, value := 0 }]] }
        : svm_problem Int).l = ((2 : Nat) : Int)
      ∧ (-2147483648 ≤ (3 : Int) ∧ (3 : Int) ≤ 2147483647)
      ∧ ∃ target : List Int,
          cModel_class_cross_validation sample_engine
              { l := 2, y := [1, 2],
                x := [[{ index := -1, value := 0 }], [{ index := -1, value := 0 }]] }
              (parameter_new : ParamMem Int).param 3
            = .returned [EngineCall.svm_cross_validation] target
          ∧ target.length = 2
          ∧ ∀ i : Fin 2,
              target[i.val]?
                = (sample_engine.svm_cross_validation
                    { l := 2, y := [1, 2],
                      x := [[{ index := -1, value := 0 }], [{ index := -1, value := 0 }]] }
                    (parameter_new : ParamMem Int).param 3 (calloc 2 (0 : Int)))[i.val]? :=
  ⟨by decide, by decide,
    cross_validation_returns_target sample_engine
      { l := 2, y := [1, 2],
        x := [[{ index := -1, value := 0 }], [{ index := -1, value := 0 }]] }
      (parameter_new : ParamMem Int).param 3 2 (by decide) (by decide)⟩



/-! ## The scan loop on buffers that hold an entry with index -1 -/

theorem scan_split {D : Type} (pre : List (svm_node D)) (s : svm_node D)
    (rest acc : List (svm_node D))
    (hpre : ∀ node ∈ pre, node.index ≠ -1) (hs : s.index = -1) :
    cProblem_examples_scan (pre ++ s :: rest) acc = some (acc ++ pre) := by
  induction pre generalizing acc with
  | nil => simp [cProblem_examples_scan, hs]
  | cons node pre ih =>
    have hnode : node.index ≠ -1 := hpre node (List.mem_cons_self _ _)
    have hrest : ∀ n ∈ pre, n.index ≠ -1 := fun n hn => hpre n (List.mem_cons_of_mem _ hn)
    simp [cProblem_examples_scan, hnode, ih _ hrest, rb_ary_push]

theorem takeWhile_split {D : Type} (pre : List (svm_node D)) (s : svm_node D)
    (rest : List (svm_node D))
    (hpre : ∀ node ∈ pre, node.index ≠ -1) (hs : s.index = -1) :
    (pre ++ s :: rest).takeWhile (fun node => decide (node.index ≠ -1)) = pre := by
  induction pre with
  | nil => simp [List.takeWhile, hs]
  | cons node pre ih =>
    have hnode : node.index ≠ -1 := hpre node (List.mem_cons_self _ _)
    have hrest : ∀ n ∈ pre, n.index ≠ -1 := fun n hn => hpre n (List.mem_cons_of_mem _ hn)
    have hp : decide (node.index ≠ -1) = true := by simpa using hnode
    rw [List.cons_append, List.takeWhile_cons, hp, ih hrest, if_pos rfl]

/-- Every buffer that holds an entry with index -1 splits at the first such
entry. -/
theorem sentinel_split {D : Type} (buf : List (svm_node D))
    (h : ∃ node ∈ buf, node.index = -1) :
    ∃ (pre : List (svm_node D)) (s : svm_node D) (rest : List (svm_node D)),
      buf = pre ++ s :: rest ∧ (∀ node ∈ pre, node.index ≠ -1) ∧ s.index = -1 := by
  induction buf with
  | nil => simp at h
  | cons node buf ih =>
    by_cases hnode : node.index = -1
    · exact ⟨[], node, buf, rfl, by simp, hnode⟩
    · have h2 : ∃ n ∈ buf, n.index = -1 := by
        obtain ⟨n, hn, hidx⟩ := h
        rcases List.mem_cons.mp hn with rfl | hn
        · exact absurd hidx hnode
        · exact ⟨n, hn, hidx⟩
      obtain ⟨pre, s, rest, hbuf, hpre, hs⟩ := ih h2
      refine ⟨node :: pre, s, rest, by rw [hbuf]; rfl, ?_, hs⟩
      intro n hn
      rcases List.mem_cons.mp hn with rfl | hn
      · exact hnode
      · exact hpre n hn

/-- C11: for every buffer that holds an entry with index -1, written as the
entries `pre` before the first such entry `s` and the cells `rest` behind it,
the scan loop of `Problem.examples` returns exactly `pre`, in order.
Consequently, for a sequence `pairs = pre ++ s :: rest` in which some entry
has index -1, decoding the buffer `example_to_internal` builds gives `pre`, a
proper prefix of `pairs`, and `examples()` called after `set_examples` (on a
Problem that is empty or holds at least as many examples) returns `pre` at the
place of that example instead of the original. -/
theorem scan_stops_at_first_sentinel {D : Type} [Zero D] (pre : List (svm_node D))
    (s : svm_node D) (rest : List (svm_node D))
    (hpre : ∀ node ∈ pre, node.index ≠ -1) (hs : s.index = -1) :
    cProblem_examples_scan (pre ++ s :: rest) [] = some pre
      ∧ cProblem_examples_scan (example_to_internal (pre ++ s :: rest)) [] = some pre
      ∧ pre.length < (pre ++ s :: rest).length
      ∧ (pre ++ s :: rest).take pre.length = pre
      ∧ pre ≠ pre ++ s :: rest
      ∧ ∀ (m : ProblemMem D) (labels : List D) (before after : List (List (svm_node D))),
          labels.length = (before ++ (pre ++ s :: rest) :: after).length →
          (m.prob.l ≤ 0 ∨ labels.length ≤ m.prob.x.length) →
          ∃ (m2 : ProblemMem D) (decoded : List (List (svm_node D))),
            cProblem_examples_set m labels (before ++ (pre ++ s :: rest) :: after)
                = .returned m2 (labels.length : Int)
              ∧ cProblem_examples m2 = .returned m2 (labels, decoded)
              ∧ decoded.length = labels.length
              ∧ decoded[before.length]? = some pre := by
  refine ⟨?_, ?_, ?_, ?_, ?_, ?_⟩
  · simpa using scan_split pre s rest [] hpre hs
  · rw [example_to_internal_eq, List.append_assoc, List.cons_append]
    simpa using scan_split pre s (rest ++ [TERMINATOR]) [] hpre hs
  · simp
  · simp
  · intro h
    have := congrArg List.length h
    simp at this
  · intro m labels before after hlen hprior
    refine ⟨_, _, set_examples_returned m labels _ hlen hprior,
      examples_returned _ labels _ hlen, ?_, ?_⟩
    · simp [hlen]
    · simp only [List.map_append, List.map_cons, takeWhile_split pre s rest hpre hs]
      rw [List.getElem?_append_right (by simp)]
      simp

/-- C11 (witness): the pairs (0, 1.0), (-1, 5.0), (2, 3.0) come back as the
single pair (0, 1.0). -/
theorem scan_stops_at_first_sentinel_witness :
    (∀ node ∈ [({ index := 0, value := 1 } : svm_node Int)], node.index ≠ -1)
      ∧ ({ index := -1, value := 5 } : svm_node Int).index = -1
      ∧ cProblem_examples_scan
          ([({ index := 0, value := 1 } : svm_node Int)]
            ++ ({ index := -1, value := 5 } : svm_node Int)
              :: [({ index := 2, value := 3 } : svm_node Int)]) []
        = some [{ index := 0, value := 1 }]
      ∧ cProblem_examples_scan
          (example_to_internal
            ([({ index := 0, value := 1 } : svm_node Int)]
              ++ ({ index := -1, value := 5 } : svm_node Int)
              :: [({ index := 2, value := 3 } : svm_node Int)])) []
        = some [{ index := 0, value := 1 }]
      ∧ ∃ (m2 : ProblemMem Int) (decoded : List (List (svm_node Int))),
          cProblem_examples_set (problem_new : ProblemMem Int) [9]
              ([] ++ ([({ index := 0, value := 1 } : svm_node Int)]
                ++ ({ index := -1, value := 5 } : svm_node Int)
              :: [({ index := 2, value := 3 } : svm_node Int)]) :: [])
            = .returned m2 (([9] : List Int).length : Int)
          ∧ cProblem_examples m2 = .returned m2 ([9], decoded)
          ∧ decoded.length = ([9] : List Int).length
          ∧ decoded[([] : List (List (svm_node Int))).length]?
              = some [{ index := 0, value := 1 }] :=
  ⟨by decide, by decide,
    (scan_stops_at_first_sentinel [({ index := 0, value := 1 } : svm_node Int)]
      { index := -1, value := 5 } [{ index := 2, value := 3 }] (by decide) (by decide)).1,
    (scan_stops_at_first_sentinel [({ index := 0, value := 1 } : svm_node Int)]
      { index := -1, value := 5 } [{ index := 2, value := 3 }] (by decide) (by decide)).2.1,
    (scan_stops_at_first_sentinel [({ index := 0, value := 1 } : svm_node Int)]
      { index := -1, value := 5 } [{ index := 2, value := 3 }] (by decide)
      (by decide)).2.2.2.2.2 problem_new [9] [] [] (by decide) (Or.inl (by decide))⟩


end Libsvm
